import Mathlib

/-!
Shallow embedding of metaspace_download.py (function download_dataset_results).
Python string operations are modelled on character lists; the pandas DataFrame
is modelled as a column list plus association-list rows where a missing key or
a stored none both denote NaN.
-/

/-- Python str.split(sep) for a single-character separator: no collapsing of
adjacent separators, an empty input yields one empty field. -/
def splitOnChar (sep : Char) : List Char → List (List Char)
  | [] => [[]]
  | x :: xs =>
    if x = sep then [] :: splitOnChar sep xs
    else
      match splitOnChar sep xs with
      | [] => [[x]]
      | g :: gs => (x :: g) :: gs

/-- Python str.strip(c): remove the character from both ends. -/
def stripChar (c : Char) (l : List Char) : List Char :=
  ((l.dropWhile (· = c)).reverse.dropWhile (· = c)).reverse

/-- Python " ".join on character lists. -/
def joinSpace : List (List Char) → List Char
  | [] => []
  | [x] => x
  | x :: xs => x ++ ' ' :: joinSpace xs

/-- Helper for whitespace splitting: accumulate the current (reversed) token. -/
def splitWsAux : List Char → List Char → List (List Char)
  | [], acc => if acc = [] then [] else [acc.reverse]
  | x :: xs, acc =>
    if x.isWhitespace then
      if acc = [] then splitWsAux xs [] else acc.reverse :: splitWsAux xs []
    else splitWsAux xs (x :: acc)

/-- Python str.split() with no argument: split on whitespace runs, dropping
empty tokens. -/
def pySplitWs (s : String) : List String :=
  (splitWsAux s.data []).map String.mk

/-- Python s.startswith(p). -/
def strStarts (s p : String) : Bool :=
  p.data.isPrefixOf s.data

/-- The alphanumeric class of the regex, ASCII [A-Za-z0-9]. -/
def isAlnumChar (c : Char) : Bool := c.isAlpha || c.isDigit

/-- Does the list start with a '+' followed by an alphanumeric character?
This is the condition for a regex match to begin at this position. -/
def headMatch : List Char → Bool
  | '+' :: c :: _ => isAlnumChar c
  | _ => false

/-- Leftmost match of the regex (\+[A-Za-z0-9]+): scan left to right and at
the first position where a '+' is followed by an alphanumeric character,
return the '+' with the maximal alphanumeric run after it. -/
def scanAdduct : List Char → Option (List Char)
  | [] => none
  | c :: rest =>
    if headMatch (c :: rest) then some ('+' :: rest.takeWhile isAlnumChar)
    else scanAdduct rest

/-- Series.str.extract with the adduct regex, on one string value. -/
def adductValue (s : String) : Option String :=
  (scanAdduct s.data).map String.mk

/-- A DataFrame row: association list from column name to cell, where an
absent key or a stored none both model NaN. -/
abbrev Row := List (String × Option String)

/-- Cell access within a row. -/
def getCell : Row → String → Option String
  | [], _ => none
  | (k, v) :: rest, c => if k = c then v else getCell rest c

/-- Column assignment within a row: replace the first entry with the key, or
append a new entry at the end. -/
def setKey (k : String) (v : Option String) : Row → Row
  | [] => [(k, v)]
  | (k1, v1) :: rest => if k1 = k then (k, v) :: rest else (k1, v1) :: setKey k v rest

/-- The pandas DataFrame model: ordered column names plus ordered rows. -/
structure DataFrame where
  cols : List String
  rows : List Row
deriving DecidableEq

/-- pd.DataFrame() with no data. -/
def DataFrame.empty : DataFrame := ⟨[], []⟩

/-- Register a column name, keeping its position if already present and
appending at the end otherwise. -/
def addColName (cols : List String) (c : String) : List String :=
  if c ∈ cols then cols else cols ++ [c]

/-- df[c] = v for a scalar v: every row gets the value. -/
def setConst (df : DataFrame) (c : String) (v : String) : DataFrame :=
  ⟨addColName df.cols c, df.rows.map (setKey c (some v))⟩

/-- pd.concat([a, b], ignore_index=True): columns are the union in first-seen
order; rows are appended (alignment is by key lookup, so rows carry over). -/
def dfConcat (a b : DataFrame) : DataFrame :=
  ⟨a.cols ++ b.cols.filter (fun c => ¬ c ∈ a.cols), a.rows ++ b.rows⟩

/-- Derive the Adduct cell of one row from its ion cell. -/
def adductRow (r : Row) : Row :=
  setKey "Adduct" ((getCell r "ion").bind adductValue) r

/-- The ion-to-Adduct extraction step, applied only when an ion column exists. -/
def extractStep (df : DataFrame) : DataFrame :=
  if "ion" ∈ df.cols then ⟨addColName df.cols "Adduct", df.rows.map adductRow⟩
  else df

/-- The column renaming intensity to maxIntensity. -/
def rnKey (k : String) : String :=
  if k = "intensity" then "maxIntensity" else k

/-- Rename the intensity key of one row (each entry key passes through
rnKey, values and positions unchanged). -/
def renameRow : Row → Row
  | [] => []
  | (k, v) :: rest => (rnKey k, v) :: renameRow rest

/-- df.rename(columns=..., inplace=True), applied only when an intensity
column exists. -/
def renameStep (df : DataFrame) : DataFrame :=
  if "intensity" ∈ df.cols then ⟨df.cols.map rnKey, df.rows.map renameRow⟩
  else df

/-- The column deriver: Adduct extraction followed by the rename, in source
order. -/
def deriveSteps (df : DataFrame) : DataFrame :=
  renameStep (extractStep df)

/-- The remote dataset: the textual database descriptors and the results
fetch parameterized by (name, version). -/
structure Dataset where
  database_details : List String
  results : String → String → DataFrame

/-- The slice db_str.split(":")[1:3] with each part stripped of '>' on both
ends (Python strip). -/
def parsedParts (raw : String) : List String :=
  (((splitOnChar ':' raw.data).drop 1).take 2).map (fun l => String.mk (stripChar '>' l))

/-- The parsed "name version" string for one descriptor. -/
def parseDescriptor (raw : String) : String :=
  String.mk (joinSpace ((parsedParts raw).map String.data))

/-- database_info: the parsed descriptor strings in original order. -/
def databaseInfo (d : Dataset) : List String :=
  d.database_details.map parseDescriptor

/-- One fetched result table tagged with its Database and Version columns. -/
def taggedDF (d : Dataset) (name ver : String) : DataFrame :=
  setConst (setConst (d.results name ver) "Database" name) "Version" ver

/-- The observable effects of one run: printed lines, performed fetches, the
written file (name and table) and the returned value (none models None). -/
structure RunResult where
  log : List String
  fetches : List (String × String)
  written : Option (String × DataFrame)
  retval : Option DataFrame
deriving DecidableEq

/-- A run either raises (the ValueError of tuple unpacking) or finishes. -/
inductive Outcome
  | raised
  | ok (r : RunResult)
deriving DecidableEq

def Outcome.logOf : Outcome → Option (List String)
  | .raised => none
  | .ok r => some r.log

def Outcome.fetchesOf : Outcome → Option (List (String × String))
  | .raised => none
  | .ok r => some r.fetches

def Outcome.writtenOf : Outcome → Option (String × DataFrame)
  | .raised => none
  | .ok r => r.written

def Outcome.retvalOf : Outcome → Option DataFrame
  | .raised => none
  | .ok r => r.retval

/-- The loop filter: database is None or database == name, and version is
None or version == ver. -/
def selPred (database version : Option String) (n v : String) : Bool :=
  decide ((database = none ∨ database = some n) ∧ (version = none ∨ version = some v))

/-- The fetch loop over database_info, threading printed lines, fetches and
the accumulated concatenated table; none models the raised ValueError when a
parsed descriptor does not split into exactly two tokens. -/
def fetchLoop (d : Dataset) (database version : Option String) :
    List String → List String → List (String × String) → DataFrame →
    Option (List String × List (String × String) × DataFrame)
  | [], log, fetches, acc => some (log, fetches, acc)
  | s :: rest, log, fetches, acc =>
    match pySplitWs s with
    | [name, ver] =>
      if selPred database version name ver then
        fetchLoop d database version rest
          (log ++ ["Processing database: " ++ name ++ ", version: " ++ ver])
          (fetches ++ [(name, ver)])
          (dfConcat acc (taggedDF d name ver))
      else fetchLoop d database version rest log fetches acc
    | _ => none

/-- matched_databases for a given name filter. -/
def matchedOf (d : Dataset) (a : String) : List String :=
  (databaseInfo d).filter (fun s => strStarts s a)

/-- The filename policy of the source, including the Python truthiness of
the database argument (an empty string behaves like no filter here). -/
def mkFilename (info : List String) (database : Option String) : String :=
  match database with
  | some a =>
    if a = "" then "all_databases.csv"
    else
      let matched_versions := (info.filter (fun s => strStarts s a)).map
        (fun s => (pySplitWs s).getD 1 "")
      if 1 < matched_versions.length then a ++ "_all_versions.csv"
      else a ++ "_" ++ matched_versions.getD 0 "" ++ ".csv"
  | none => "all_databases.csv"

/-- The tail of the function after the loop: derive columns, compute the
filename, write the CSV and return the table. -/
def finishRun (info : List String) (database : Option String) (log : List String)
    (fetches : List (String × String)) (df : DataFrame) : RunResult :=
  let results_df := deriveSteps df
  let filename := mkFilename info database
  ⟨log ++ ["Results saved to " ++ filename], fetches, some (filename, results_df),
    some results_df⟩

/-- download_dataset_results. The database check runs only when the argument
is truthy (Python: if database). On an unmatched truthy filter the function
prints the available list and returns None with no fetch and no write. -/
def download_dataset_results (d : Dataset) (database version : Option String) : Outcome :=
  let info := databaseInfo d
  let proceed : List String → Outcome := fun warnLog =>
    match fetchLoop d database version info warnLog [] DataFrame.empty with
    | none => Outcome.raised
    | some (log, fetches, df) => Outcome.ok (finishRun info database log fetches df)
  match database with
  | some a =>
    if a = "" then proceed []
    else
      let matched_databases := info.filter (fun s => strStarts s a)
      if matched_databases = [] then
        Outcome.ok ⟨["Could not find database: " ++ a,
          "Available databases and versions:"] ++ info, [], none, none⟩
      else if 1 < matched_databases.length ∧ version = none then
        proceed (["Warning: Multiple versions found for database " ++ a ++ ".",
          "Available versions:"] ++ matched_databases)
      else proceed []
  | none => proceed []

/-- The descriptors the loop actually selects, as (name, version) pairs in
original order. -/
def selectedOf (database version : Option String) (info : List String) :
    List (String × String) :=
  info.filterMap (fun s =>
    match pySplitWs s with
    | [n, v] => if selPred database version n v then some (n, v) else none
    | _ => none)

/-- The printed line for one processed descriptor. -/
def procMsg (p : String × String) : String :=
  "Processing database: " ++ p.1 ++ ", version: " ++ p.2

/-- Left fold of dfConcat, matching the accumulation of the loop. -/
def concatAll : DataFrame → List DataFrame → DataFrame
  | acc, [] => acc
  | acc, x :: xs => concatAll (dfConcat acc x) xs

/-- The concatenated table of all selected descriptors. -/
def combinedDF (d : Dataset) (database version : Option String) : DataFrame :=
  concatAll DataFrame.empty
    ((selectedOf database version (databaseInfo d)).map (fun p => taggedDF d p.1 p.2))

/-- The warning lines printed before the loop. -/
def warnOf (d : Dataset) (database version : Option String) : List String :=
  match database with
  | none => []
  | some a =>
    if a ≠ "" ∧ 1 < (matchedOf d a).length ∧ version = none then
      ["Warning: Multiple versions found for database " ++ a ++ ".",
        "Available versions:"] ++ matchedOf d a
    else []

/-- Does the run reach the fetch loop (rather than returning None early)? -/
def reachesLoop (d : Dataset) (database : Option String) : Bool :=
  match database with
  | none => true
  | some a => decide (a = "" ∨ matchedOf d a ≠ [])

/-- The row transformation of the deriver, parameterized by whether the
combined table has ion and intensity columns. -/
def deriveRowF (hasIon hasInt : Bool) (r : Row) : Row :=
  if hasInt then renameRow (if hasIon then adductRow r else r)
  else if hasIon then adductRow r else r

/-- Whether a string is a single whitespace-free token. -/
def singleTok (s : String) : Bool :=
  decide (s.data ≠ [] ∧ ∀ c ∈ s.data, c.isWhitespace = false)

/- Concrete data for witnesses and counterexamples. -/

/-- A one-row result table with ion and intensity columns. -/
def sampleDF : DataFrame :=
  ⟨["ion", "intensity"], [[("ion", some "C8H10+Na+"), ("intensity", some "5")]]⟩

/-- Two versions of the same database. -/
def dsTwoKEGG : Dataset :=
  ⟨["<1:KEGG:v1>", "<2:KEGG:v2>"], fun _ _ => sampleDF⟩

/-- Two different databases with different versions. -/
def dsMixed : Dataset :=
  ⟨["<1:KEGG:v1>", "<2:HMDB:v2>"], fun _ _ => sampleDF⟩

/-- A descriptor whose parsed name contains a space: three tokens. -/
def dsBad : Dataset :=
  ⟨["<1:KEGG HD:v1>"], fun _ _ => sampleDF⟩

/-- A descriptor whose parsed version carries a leading space. -/
def dsSpaceVer : Dataset :=
  ⟨["<1:KEGG: v1>"], fun _ _ => sampleDF⟩

example : databaseInfo dsTwoKEGG = ["KEGG v1", "KEGG v2"] := by decide
example : databaseInfo dsSpaceVer = ["KEGG  v1"] := by decide
example : pySplitWs "KEGG  v1" = ["KEGG", "v1"] := by decide
example : adductValue "X+H" = some "+H" := by decide
example : adductValue "C8H10+Na+" = some "+Na" := by decide

/- Row-level lemmas. -/

theorem getCell_setKey_self (k : String) (v : Option String) :
    ∀ r : Row, getCell (setKey k v r) k = v := by
  intro r
  induction r with
  | nil => simp [setKey, getCell]
  | cons p rest ih =>
    obtain ⟨k1, v1⟩ := p
    by_cases h : k1 = k
    · simp [setKey, getCell, h]
    · simp [setKey, getCell, h, ih]

theorem getCell_setKey_ne {c k : String} (h : c ≠ k) (v : Option String) :
    ∀ r : Row, getCell (setKey k v r) c = getCell r c := by
  intro r
  induction r with
  | nil => simp [setKey, getCell, Ne.symm h]
  | cons p rest ih =>
    obtain ⟨k1, v1⟩ := p
    by_cases h1 : k1 = k
    · subst h1
      simp [setKey, getCell, Ne.symm h]
    · simp [setKey, getCell, h1, ih]

theorem setKey_setKey (k : String) (v w : Option String) :
    ∀ r : Row, setKey k v (setKey k w r) = setKey k v r := by
  intro r
  induction r with
  | nil => simp [setKey]
  | cons p rest ih =>
    obtain ⟨k1, v1⟩ := p
    by_cases h : k1 = k
    · simp [setKey, h]
    · simp [setKey, h, ih]

theorem rnKey_of_ne {k : String} (h : k ≠ "intensity") : rnKey k = k := by
  simp [rnKey, h]

theorem rnKey_ne_intensity (k : String) : rnKey k ≠ "intensity" := by
  by_cases h : k = "intensity" <;> simp [rnKey, h]

theorem rnKey_eq_iff {c : String} (hc1 : c ≠ "intensity") (hc2 : c ≠ "maxIntensity")
    (k : String) : rnKey k = c ↔ k = c := by
  by_cases h : k = "intensity"
  · subst h
    simp [rnKey, Ne.symm hc2, Ne.symm hc1]
  · simp [rnKey, h]

theorem getCell_renameRow {c : String} (hc1 : c ≠ "intensity") (hc2 : c ≠ "maxIntensity") :
    ∀ r : Row, getCell (renameRow r) c = getCell r c := by
  intro r
  induction r with
  | nil => simp [renameRow]
  | cons p rest ih =>
    obtain ⟨k1, v1⟩ := p
    by_cases h1 : k1 = c
    · subst h1
      simp [renameRow, getCell, rnKey_of_ne hc1]
    · have hrn : rnKey k1 ≠ c := fun hh => h1 ((rnKey_eq_iff hc1 hc2 k1).mp hh)
      simp [renameRow, getCell, h1, hrn, ih]

theorem renameRow_setKey_adduct (v : Option String) :
    ∀ r : Row, renameRow (setKey "Adduct" v r) = setKey "Adduct" v (renameRow r) := by
  intro r
  have hA1 : ("Adduct" : String) ≠ "intensity" := by decide
  have hA2 : ("Adduct" : String) ≠ "maxIntensity" := by decide
  induction r with
  | nil => simp [renameRow, setKey, rnKey_of_ne hA1]
  | cons p rest ih =>
    obtain ⟨k1, v1⟩ := p
    by_cases h1 : k1 = "Adduct"
    · subst h1
      simp [renameRow, setKey, rnKey_of_ne hA1]
    · have hrn : rnKey k1 ≠ "Adduct" := fun hh => h1 ((rnKey_eq_iff hA1 hA2 k1).mp hh)
      simp [renameRow, setKey, h1, hrn, ih]

theorem getCell_adductRow_ne {c : String} (hc : c ≠ "Adduct") (r : Row) :
    getCell (adductRow r) c = getCell r c :=
  getCell_setKey_ne hc _ r

theorem adductRow_idem (r : Row) : adductRow (adductRow r) = adductRow r := by
  have hi : ("ion" : String) ≠ "Adduct" := by decide
  unfold adductRow
  rw [getCell_setKey_ne hi _ r, setKey_setKey]

theorem renameRow_adductRow_comm (r : Row) :
    renameRow (adductRow r) = adductRow (renameRow r) := by
  have h1 : ("ion" : String) ≠ "intensity" := by decide
  have h2 : ("ion" : String) ≠ "maxIntensity" := by decide
  unfold adductRow
  rw [renameRow_setKey_adduct, getCell_renameRow h1 h2]

/- Column-level lemmas. -/

theorem mem_addColName_self (cols : List String) (c : String) : c ∈ addColName cols c := by
  by_cases h : c ∈ cols <;> simp [addColName, h]

theorem mem_addColName_ne {c a : String} (h : c ≠ a) (cols : List String) :
    c ∈ addColName cols a ↔ c ∈ cols := by
  by_cases hm : a ∈ cols <;> simp [addColName, hm, h]

theorem addColName_of_mem {cols : List String} {c : String} (h : c ∈ cols) :
    addColName cols c = cols := by
  simp [addColName, h]

theorem not_intensity_mem_map_rnKey (cols : List String) :
    "intensity" ∉ cols.map rnKey := by
  intro h
  obtain ⟨k, _, hk⟩ := List.mem_map.mp h
  exact rnKey_ne_intensity k hk

theorem mem_map_rnKey {c : String} (hc1 : c ≠ "intensity") (hc2 : c ≠ "maxIntensity")
    (cols : List String) : c ∈ cols.map rnKey ↔ c ∈ cols := by
  constructor
  · intro h
    obtain ⟨k, hk, he⟩ := List.mem_map.mp h
    exact ((rnKey_eq_iff hc1 hc2 k).mp he) ▸ hk
  · intro h
    exact List.mem_map.mpr ⟨c, h, rnKey_of_ne hc1⟩

theorem mem_map_rnKey_max {cols : List String} (h : "intensity" ∈ cols) :
    "maxIntensity" ∈ cols.map rnKey := by
  refine List.mem_map.mpr ⟨"intensity", h, ?_⟩
  simp [rnKey]

/- Step-level lemmas. -/

theorem extractStep_of_not_mem {df : DataFrame} (h : "ion" ∉ df.cols) :
    extractStep df = df := by
  simp [extractStep, h]

theorem extractStep_of_mem {df : DataFrame} (h : "ion" ∈ df.cols) :
    extractStep df = ⟨addColName df.cols "Adduct", df.rows.map adductRow⟩ := by
  simp [extractStep, h]

theorem renameStep_of_not_mem {df : DataFrame} (h : "intensity" ∉ df.cols) :
    renameStep df = df := by
  simp [renameStep, h]

theorem renameStep_of_mem {df : DataFrame} (h : "intensity" ∈ df.cols) :
    renameStep df = ⟨df.cols.map rnKey, df.rows.map renameRow⟩ := by
  simp [renameStep, h]

theorem mem_cols_extractStep {c : String} (hc : c ≠ "Adduct") (df : DataFrame) :
    c ∈ (extractStep df).cols ↔ c ∈ df.cols := by
  by_cases h : "ion" ∈ df.cols
  · rw [extractStep_of_mem h]
    exact mem_addColName_ne hc df.cols
  · rw [extractStep_of_not_mem h]

theorem mem_cols_renameStep {c : String} (hc1 : c ≠ "intensity") (hc2 : c ≠ "maxIntensity")
    (df : DataFrame) : c ∈ (renameStep df).cols ↔ c ∈ df.cols := by
  by_cases h : "intensity" ∈ df.cols
  · rw [renameStep_of_mem h]
    exact mem_map_rnKey hc1 hc2 df.cols
  · rw [renameStep_of_not_mem h]

theorem not_intensity_mem_renameStep (df : DataFrame) :
    "intensity" ∉ (renameStep df).cols := by
  by_cases h : "intensity" ∈ df.cols
  · rw [renameStep_of_mem h]
    exact not_intensity_mem_map_rnKey df.cols
  · rw [renameStep_of_not_mem h]
    exact h

theorem extractStep_idem (df : DataFrame) : extractStep (extractStep df) = extractStep df := by
  by_cases h : "ion" ∈ df.cols
  · have hion : ("ion" : String) ≠ "Adduct" := by decide
    have h2 : "ion" ∈ (extractStep df).cols := (mem_cols_extractStep hion df).mpr h
    rw [extractStep_of_mem h] at h2
    rw [extractStep_of_mem h, extractStep_of_mem h2]
    have hAd : ("Adduct" : String) ∈ addColName df.cols "Adduct" :=
      mem_addColName_self df.cols "Adduct"
    simp only [addColName_of_mem hAd, List.map_map]
    have : adductRow ∘ adductRow = adductRow := funext adductRow_idem
    rw [this]
  · rw [extractStep_of_not_mem h, extractStep_of_not_mem h]

theorem renameStep_idem (df : DataFrame) : renameStep (renameStep df) = renameStep df :=
  renameStep_of_not_mem (not_intensity_mem_renameStep df)

theorem extractStep_renameStep_comm (df : DataFrame) :
    extractStep (renameStep df) = renameStep (extractStep df) := by
  have hion1 : ("ion" : String) ≠ "intensity" := by decide
  have hion2 : ("ion" : String) ≠ "maxIntensity" := by decide
  have hionA : ("ion" : String) ≠ "Adduct" := by decide
  have hintA : ("intensity" : String) ≠ "Adduct" := by decide
  by_cases hI : "ion" ∈ df.cols <;> by_cases hN : "intensity" ∈ df.cols
  · have hI2 : "ion" ∈ (renameStep df).cols := (mem_cols_renameStep hion1 hion2 df).mpr hI
    have hN2 : "intensity" ∈ (extractStep df).cols := (mem_cols_extractStep hintA df).mpr hN
    rw [renameStep_of_mem hN, extractStep_of_mem hI]
    rw [renameStep_of_mem hN] at hI2
    rw [extractStep_of_mem hI] at hN2
    rw [extractStep_of_mem hI2, renameStep_of_mem hN2]
    refine congrArg₂ DataFrame.mk ?_ ?_
    · show addColName (df.cols.map rnKey) "Adduct" = (addColName df.cols "Adduct").map rnKey
      have hAd : ("Adduct" : String) ≠ "intensity" := by decide
      have hAd2 : ("Adduct" : String) ≠ "maxIntensity" := by decide
      by_cases hm : "Adduct" ∈ df.cols
      · rw [addColName_of_mem hm,
          addColName_of_mem ((mem_map_rnKey hAd hAd2 df.cols).mpr hm)]
      · have hm2 : "Adduct" ∉ df.cols.map rnKey := fun hh =>
          hm ((mem_map_rnKey hAd hAd2 df.cols).mp hh)
        simp [addColName, hm, hm2, rnKey_of_ne hAd]
    · show (df.rows.map renameRow).map adductRow = (df.rows.map adductRow).map renameRow
      simp only [List.map_map]
      refine congrArg (fun f => List.map f df.rows) ?_
      funext r
      exact (renameRow_adductRow_comm r).symm
  · have hN2 : "intensity" ∉ (extractStep df).cols := fun hh =>
      hN ((mem_cols_extractStep hintA df).mp hh)
    have hI2 : "ion" ∈ (renameStep df).cols := by rw [renameStep_of_not_mem hN]; exact hI
    rw [renameStep_of_not_mem hN, renameStep_of_not_mem hN2]
  · have hI2 : "ion" ∉ (renameStep df).cols := fun hh =>
      hI ((mem_cols_renameStep hion1 hion2 df).mp hh)
    rw [extractStep_of_not_mem hI, extractStep_of_not_mem hI2]
  · have hN2 : "intensity" ∉ (extractStep df).cols := fun hh =>
      hN ((mem_cols_extractStep hintA df).mp hh)
    rw [renameStep_of_not_mem hN, renameStep_of_not_mem hN2]

theorem deriveSteps_idem (df : DataFrame) : deriveSteps (deriveSteps df) = deriveSteps df := by
  unfold deriveSteps
  rw [extractStep_renameStep_comm (extractStep df), extractStep_idem,
    renameStep_idem]

theorem deriveRowF_ff : deriveRowF false false = fun r : Row => r := by
  funext r; simp [deriveRowF]

theorem deriveRowF_tf : deriveRowF true false = adductRow := by
  funext r; simp [deriveRowF]

theorem deriveRowF_ft : deriveRowF false true = renameRow := by
  funext r; simp [deriveRowF]

theorem deriveRowF_tt : deriveRowF true true = fun r : Row => renameRow (adductRow r) := by
  funext r; simp [deriveRowF]

theorem deriveSteps_rows (df : DataFrame) :
    (deriveSteps df).rows =
      df.rows.map (deriveRowF (decide ("ion" ∈ df.cols)) (decide ("intensity" ∈ df.cols))) := by
  have hintA : ("intensity" : String) ≠ "Adduct" := by decide
  unfold deriveSteps
  by_cases hI : "ion" ∈ df.cols <;> by_cases hN : "intensity" ∈ df.cols
  · have hN2 : "intensity" ∈ (extractStep df).cols := (mem_cols_extractStep hintA df).mpr hN
    rw [extractStep_of_mem hI] at hN2
    rw [extractStep_of_mem hI, renameStep_of_mem hN2, decide_eq_true hI, decide_eq_true hN,
      deriveRowF_tt]
    simp [List.map_map, Function.comp]
  · have hN2 : "intensity" ∉ (extractStep df).cols := fun hh =>
      hN ((mem_cols_extractStep hintA df).mp hh)
    rw [extractStep_of_mem hI] at hN2
    rw [extractStep_of_mem hI, renameStep_of_not_mem hN2, decide_eq_true hI,
      decide_eq_false hN, deriveRowF_tf]
  · have hN2 : "intensity" ∈ (extractStep df).cols := (mem_cols_extractStep hintA df).mpr hN
    rw [extractStep_of_not_mem hI] at hN2 ⊢
    rw [renameStep_of_mem hN2, decide_eq_false hI, decide_eq_true hN, deriveRowF_ft]
  · have hN2 : "intensity" ∉ (extractStep df).cols := fun hh =>
      hN ((mem_cols_extractStep hintA df).mp hh)
    rw [extractStep_of_not_mem hI] at hN2 ⊢
    rw [renameStep_of_not_mem hN2, decide_eq_false hI, decide_eq_false hN, deriveRowF_ff,
      List.map_id']

theorem getCell_deriveRowF {c : String} (hc1 : c ≠ "Adduct") (hc2 : c ≠ "intensity")
    (hc3 : c ≠ "maxIntensity") (hI hN : Bool) (r : Row) :
    getCell (deriveRowF hI hN r) c = getCell r c := by
  unfold deriveRowF
  cases hI <;> cases hN <;>
    simp [getCell_renameRow hc2 hc3, getCell_adductRow_ne hc1]

/- Loop-level lemmas. -/

theorem list_eq_pair_of_length_two {α : Type} {l : List α} (h : l.length = 2) :
    ∃ a b, l = [a, b] := by
  rcases l with _ | ⟨a, _ | ⟨b, _ | ⟨c, t⟩⟩⟩
  · simp at h
  · simp at h
  · exact ⟨a, b, rfl⟩
  · simp [List.length_cons] at h

theorem concatAll_rows : ∀ (dfs : List DataFrame) (acc : DataFrame),
    (concatAll acc dfs).rows = acc.rows ++ (dfs.map DataFrame.rows).flatten := by
  intro dfs
  induction dfs with
  | nil => intro acc; simp [concatAll]
  | cons x xs ih =>
    intro acc
    simp [concatAll, ih, dfConcat, List.append_assoc]

theorem selectedOf_cons_pair {database version : Option String} {s : String}
    {n v : String} (hs : pySplitWs s = [n, v]) (info : List String) :
    selectedOf database version (s :: info) =
      (if selPred database version n v then [(n, v)] else []) ++
        selectedOf database version info := by
  by_cases hsel : selPred database version n v <;>
    simp [selectedOf, List.filterMap_cons, hs, hsel]

theorem fetchLoop_eq (d : Dataset) (database version : Option String) :
    ∀ (info log : List String) (fetches : List (String × String)) (acc : DataFrame),
    (∀ s ∈ info, (pySplitWs s).length = 2) →
    fetchLoop d database version info log fetches acc =
      some (log ++ (selectedOf database version info).map procMsg,
        fetches ++ selectedOf database version info,
        concatAll acc ((selectedOf database version info).map (fun p => taggedDF d p.1 p.2))) := by
  intro info
  induction info with
  | nil =>
    intro log fetches acc _
    simp [fetchLoop, selectedOf, concatAll]
  | cons s rest ih =>
    intro log fetches acc h2
    obtain ⟨n, v, hs⟩ := list_eq_pair_of_length_two (h2 s (List.mem_cons_self s rest))
    have hrest : ∀ t ∈ rest, (pySplitWs t).length = 2 :=
      fun t ht => h2 t (List.mem_cons_of_mem s ht)
    rw [selectedOf_cons_pair hs]
    by_cases hsel : selPred database version n v
    · simp only [fetchLoop, hs, hsel, if_true]
      rw [ih (log ++ ["Processing database: " ++ n ++ ", version: " ++ v])
        (fetches ++ [(n, v)]) (dfConcat acc (taggedDF d n v)) hrest]
      simp [procMsg, concatAll, List.append_assoc]
    · simp only [fetchLoop, hs, hsel, if_false]
      exact ih log fetches acc hrest

theorem download_eq_finish (d : Dataset) (database version : Option String)
    (h2 : ∀ s ∈ databaseInfo d, (pySplitWs s).length = 2)
    (hr : reachesLoop d database = true) :
    download_dataset_results d database version =
      Outcome.ok (finishRun (databaseInfo d) database
        (warnOf d database version ++
          (selectedOf database version (databaseInfo d)).map procMsg)
        (selectedOf database version (databaseInfo d))
        (combinedDF d database version)) := by
  cases database with
  | none =>
    unfold download_dataset_results
    dsimp only
    rw [fetchLoop_eq d none version (databaseInfo d) [] [] DataFrame.empty h2]
    simp [warnOf, combinedDF]
  | some a =>
    by_cases ha : a = ""
    · subst ha
      unfold download_dataset_results
      dsimp only
      simp only [if_pos rfl]
      rw [fetchLoop_eq d (some "") version (databaseInfo d) [] [] DataFrame.empty h2]
      simp [warnOf, combinedDF]
    · have hm : matchedOf d a ≠ [] := by
        unfold reachesLoop at hr
        simp only [decide_eq_true_eq] at hr
        exact hr.resolve_left ha
      unfold download_dataset_results
      dsimp only
      simp only [if_neg ha]
      have hm2 : ¬ ((databaseInfo d).filter (fun s => strStarts s a) = []) := hm
      by_cases hw : 1 < ((databaseInfo d).filter (fun s => strStarts s a)).length ∧
        version = none
      · simp only [if_neg hm2, if_pos hw]
        rw [fetchLoop_eq d (some a) version (databaseInfo d) _ [] DataFrame.empty h2]
        have hwarn : warnOf d (some a) version =
            ["Warning: Multiple versions found for database " ++ a ++ ".",
              "Available versions:"] ++ matchedOf d a := by
          simp [warnOf, ha, hw.1, hw.2, matchedOf]
        rw [hwarn]
        simp [combinedDF, matchedOf]
      · simp only [if_neg hm2, if_neg hw]
        rw [fetchLoop_eq d (some a) version (databaseInfo d) [] [] DataFrame.empty h2]
        have hwarn : warnOf d (some a) version = [] := by
          rcases not_and_or.mp hw with h | h
          · simp [warnOf, matchedOf, h]
          · simp [warnOf, matchedOf, h]
        rw [hwarn]
        simp [combinedDF, matchedOf]

theorem fetchLoop_none (d : Dataset) (database version : Option String) :
    ∀ (info log : List String) (fetches : List (String × String)) (acc : DataFrame),
    (∃ s ∈ info, (pySplitWs s).length ≠ 2) →
    fetchLoop d database version info log fetches acc = none := by
  intro info
  induction info with
  | nil => intro log f acc h; simp at h
  | cons s rest ih =>
    intro log f acc h
    by_cases hs2 : (pySplitWs s).length = 2
    · obtain ⟨n, v, hs⟩ := list_eq_pair_of_length_two hs2
      have hb : ∃ t ∈ rest, (pySplitWs t).length ≠ 2 := by
        obtain ⟨t, ht, hlen⟩ := h
        rcases List.mem_cons.mp ht with h1 | h1
        · exact absurd hs2 (h1 ▸ hlen)
        · exact ⟨t, h1, hlen⟩
      by_cases hsel : selPred database version n v
      · simp only [fetchLoop, hs, hsel, if_true]
        exact ih _ _ _ hb
      · simp only [fetchLoop, hs, hsel, if_false]
        exact ih _ _ _ hb
    · rcases hl : pySplitWs s with _ | ⟨x, _ | ⟨y, _ | ⟨z, t⟩⟩⟩
      · simp [fetchLoop, hl]
      · simp [fetchLoop, hl]
      · exact absurd (by rw [hl]; rfl) hs2
      · simp [fetchLoop, hl]

theorem selectedOf_mem_name {a : String} {version : Option String} {info : List String}
    {p : String × String} (hp : p ∈ selectedOf (some a) version info) : p.1 = a := by
  obtain ⟨s, hs, hmap⟩ := List.mem_filterMap.mp hp
  rcases h : pySplitWs s with _ | ⟨n, _ | ⟨v, _ | ⟨z, t⟩⟩⟩ <;> rw [h] at hmap
  · simp at hmap
  · simp at hmap
  · have hmap2 : (if selPred (some a) version n v = true then some (n, v) else none) =
        some p := hmap
    by_cases hsel : selPred (some a) version n v
    · rw [if_pos hsel] at hmap2
      obtain rfl : (n, v) = p := Option.some.inj hmap2
      have hp1 := (of_decide_eq_true hsel).1
      rcases hp1 with h1 | h1
      · exact absurd h1 (by simp)
      · exact (Option.some.inj h1).symm
    · rw [if_neg hsel] at hmap2
      exact absurd hmap2 (by simp)
  · simp at hmap

theorem selPred_none_none (n v : String) : selPred none none n v = true := by
  simp [selPred]

theorem selectedOf_none_none {info : List String}
    (h2 : ∀ s ∈ info, (pySplitWs s).length = 2) :
    selectedOf none none info =
      info.map (fun s => ((pySplitWs s).getD 0 "", (pySplitWs s).getD 1 "")) := by
  induction info with
  | nil => simp [selectedOf]
  | cons s rest ih =>
    obtain ⟨n, v, hs⟩ := list_eq_pair_of_length_two (h2 s (List.mem_cons_self s rest))
    rw [selectedOf_cons_pair hs]
    simp [selPred_none_none, hs, ih (fun t ht => h2 t (List.mem_cons_of_mem s ht)),
      List.getD]

theorem taggedDF_rows_length (d : Dataset) (n v : String) :
    (taggedDF d n v).rows.length = (d.results n v).rows.length := by
  simp [taggedDF, setConst]

theorem retval_rows_length (d : Dataset) (database version : Option String)
    (h2 : ∀ s ∈ databaseInfo d, (pySplitWs s).length = 2)
    (hr : reachesLoop d database = true) :
    (Outcome.retvalOf (download_dataset_results d database version)).map
        (fun df => df.rows.length) =
      some (((selectedOf database version (databaseInfo d)).map
        (fun p => (d.results p.1 p.2).rows.length)).sum) := by
  rw [download_eq_finish d database version h2 hr]
  simp only [Outcome.retvalOf, finishRun, Option.map_some']
  rw [deriveSteps_rows]
  simp only [combinedDF, concatAll_rows, List.length_flatten, List.map_map, Function.comp,
    List.length_map, Option.some.injEq, DataFrame.empty, List.nil_append]
  congr 1
  refine List.map_congr_left fun p _ => ?_
  simp [taggedDF_rows_length]

/-- C3: when the database argument is given (a truthy, non-empty name) and
prefix-matches zero parsed descriptors, the function prints the failure
message and the full available list, returns the null sentinel (retval is
none), performs no fetch (fetches is empty) and writes no file (written is
none). -/
theorem c3_unmatched_returns_none (d : Dataset) (a : String) (version : Option String)
    (ha : a ≠ "") (hm : matchedOf d a = []) :
    download_dataset_results d (some a) version =
      Outcome.ok ⟨["Could not find database: " ++ a,
        "Available databases and versions:"] ++ databaseInfo d, [], none, none⟩ := by
  unfold download_dataset_results
  dsimp only
  rw [if_neg ha, if_pos (show (databaseInfo d).filter (fun s => strStarts s a) = [] from hm)]

/-- Witness for C3 at a concrete dataset and an unmatched name. -/
theorem c3_unmatched_witness :
    download_dataset_results dsTwoKEGG (some "XYZ") none =
      Outcome.ok ⟨["Could not find database: XYZ",
        "Available databases and versions:", "KEGG v1", "KEGG v2"], [], none, none⟩ := by
  rw [c3_unmatched_returns_none dsTwoKEGG "XYZ" none (by decide) (by decide)]
  decide

/-- C9: whenever the run reaches the fetch loop (database argument falsy, or
at least one prefix match) and some parsed descriptor string does not split
into exactly two whitespace tokens, the two-variable unpacking raises, so the
whole call ends in the raised outcome instead of returning. -/
theorem c9_bad_descriptor_raises (d : Dataset) (database version : Option String)
    (hr : reachesLoop d database = true)
    (hbad : ∃ s ∈ databaseInfo d, (pySplitWs s).length ≠ 2) :
    download_dataset_results d database version = Outcome.raised := by
  cases database with
  | none =>
    unfold download_dataset_results
    dsimp only
    rw [fetchLoop_none d none version (databaseInfo d) [] [] DataFrame.empty hbad]
  | some a =>
    by_cases ha : a = ""
    · subst ha
      unfold download_dataset_results
      dsimp only
      rw [if_pos rfl,
        fetchLoop_none d (some "") version (databaseInfo d) [] [] DataFrame.empty hbad]
    · have hm : matchedOf d a ≠ [] := by
        unfold reachesLoop at hr
        simp only [decide_eq_true_eq] at hr
        exact hr.resolve_left ha
      unfold download_dataset_results
      dsimp only
      rw [if_neg ha,
        if_neg (show ¬ (databaseInfo d).filter (fun s => strStarts s a) = [] from hm)]
      by_cases hw : 1 < ((databaseInfo d).filter (fun s => strStarts s a)).length ∧
        version = none
      · rw [if_pos hw,
          fetchLoop_none d (some a) version (databaseInfo d) _ [] DataFrame.empty hbad]
      · rw [if_neg hw,
          fetchLoop_none d (some a) version (databaseInfo d) [] [] DataFrame.empty hbad]

/-- Witness for C9 at a dataset whose single descriptor parses to three
tokens. -/
theorem c9_bad_descriptor_witness :
    download_dataset_results dsBad none none = Outcome.raised :=
  c9_bad_descriptor_raises dsBad none none (by decide) (by decide)

/-- C10: if the database argument is truthy and prefix-matches at least one
descriptor, every descriptor parses to two tokens, and the loop nevertheless
selects nothing (for example a version that equals no descriptor version, or
a prefix that equals no exact name), the function still writes a CSV with no
data rows under the computed filename and returns the empty table, not the
null sentinel. -/
theorem c10_vacuous_match_writes_empty (d : Dataset) (a : String) (version : Option String)
    (ha : a ≠ "") (h2 : ∀ s ∈ databaseInfo d, (pySplitWs s).length = 2)
    (hm : matchedOf d a ≠ [])
    (hsel : selectedOf (some a) version (databaseInfo d) = []) :
    Outcome.writtenOf (download_dataset_results d (some a) version) =
      some (mkFilename (databaseInfo d) (some a), DataFrame.empty) ∧
    Outcome.retvalOf (download_dataset_results d (some a) version) =
      some DataFrame.empty := by
  have hr : reachesLoop d (some a) = true := by
    unfold reachesLoop
    exact decide_eq_true (Or.inr hm)
  have hds : deriveSteps DataFrame.empty = DataFrame.empty := by decide
  rw [download_eq_finish d (some a) version h2 hr]
  simp [Outcome.writtenOf, Outcome.retvalOf, finishRun, combinedDF, hsel, concatAll, hds]

/-- Witness for C10: a matched name with a version that matches nothing. -/
theorem c10_vacuous_match_witness :
    Outcome.writtenOf (download_dataset_results dsTwoKEGG (some "KEGG") (some "v9")) =
      some ("KEGG_all_versions.csv", DataFrame.empty) ∧
    Outcome.retvalOf (download_dataset_results dsTwoKEGG (some "KEGG") (some "v9")) =
      some DataFrame.empty := by
  have h := c10_vacuous_match_writes_empty dsTwoKEGG "KEGG" (some "v9")
    (by decide) (by decide) (by decide) (by decide)
  exact ⟨h.1.trans (by decide), h.2⟩

/-- Counterexample to C1 as stated: with descriptors KEGG v1 and KEGG v2 and
the name filter KE (a prefix match on both, no version filter), the warning
listing both versions is printed, yet nothing is fetched and the combined
output table is empty even though each matched descriptor's table has a row,
because the loop compares the filter for equality with the exact name. -/
theorem c1_cex_warned_but_nothing_fetched :
    (Outcome.logOf (download_dataset_results dsTwoKEGG (some "KE") none)).map
        (fun l => l.take 4) =
      some ["Warning: Multiple versions found for database KE.", "Available versions:",
        "KEGG v1", "KEGG v2"] ∧
    Outcome.fetchesOf (download_dataset_results dsTwoKEGG (some "KE") none) = some [] ∧
    (dsTwoKEGG.results "KEGG" "v1").rows.length = 1 ∧
    (Outcome.retvalOf (download_dataset_results dsTwoKEGG (some "KE") none)).map
        (fun df => df.rows.length) = some 0 := by
  decide

/-- C1 amended: when a truthy name filter prefix-matches more than one parsed
descriptor and no version filter is given, the run prints the non-fatal
warning listing all matching versions and then proceeds, fetching exactly
those descriptors whose parsed name equals the filter string (all of the
matched ones when the filter is the exact common name, and possibly none
otherwise). -/
theorem c1_amended_warn_then_fetch_exact_names (d : Dataset) (a : String)
    (ha : a ≠ "") (h2 : ∀ s ∈ databaseInfo d, (pySplitWs s).length = 2)
    (hm : 1 < (matchedOf d a).length) :
    (Outcome.logOf (download_dataset_results d (some a) none)).map
        (fun l => l.take (2 + (matchedOf d a).length)) =
      some (["Warning: Multiple versions found for database " ++ a ++ ".",
        "Available versions:"] ++ matchedOf d a) ∧
    Outcome.fetchesOf (download_dataset_results d (some a) none) =
      some (selectedOf (some a) none (databaseInfo d)) ∧
    (∀ p ∈ selectedOf (some a) none (databaseInfo d), p.1 = a) := by
  have hm' : matchedOf d a ≠ [] := by
    intro hnil
    rw [hnil] at hm
    simp at hm
  have hr : reachesLoop d (some a) = true := decide_eq_true (Or.inr hm')
  rw [download_eq_finish d (some a) none h2 hr]
  refine ⟨?_, ?_, fun p hp => selectedOf_mem_name hp⟩
  · simp only [Outcome.logOf, finishRun, Option.map_some']
    have hwarn : warnOf d (some a) none =
        ["Warning: Multiple versions found for database " ++ a ++ ".",
          "Available versions:"] ++ matchedOf d a := by
      simp [warnOf, ha, hm]
    rw [hwarn]
    congr 1
    have hlen : 2 + (matchedOf d a).length =
        ((["Warning: Multiple versions found for database " ++ a ++ ".",
          "Available versions:"] ++ matchedOf d a)).length := by
      simp
      omega
    rw [List.append_assoc, hlen, List.take_left]
  · simp [Outcome.fetchesOf, finishRun]

/-- Witness for the amended C1 at the exact common name KEGG: both versions
are fetched. -/
theorem c1_amended_witness :
    Outcome.fetchesOf (download_dataset_results dsTwoKEGG (some "KEGG") none) =
      some [("KEGG", "v1"), ("KEGG", "v2")] := by
  have h := c1_amended_warn_then_fetch_exact_names dsTwoKEGG "KEGG"
    (by decide) (by decide) (by decide)
  exact h.2.1.trans (by decide)

/-- Counterexample to C2 as stated: with the database argument None and a
version filter v1, only the KEGG v1 descriptor is fetched, so the output
table does not contain rows from HMDB v2 although that descriptor is
available and its table is nonempty; the claim quantified over all version
values fails. -/
theorem c2_cex_version_filters_even_without_database :
    Outcome.fetchesOf (download_dataset_results dsMixed none (some "v1")) =
      some [("KEGG", "v1")] ∧
    databaseInfo dsMixed = ["KEGG v1", "HMDB v2"] ∧
    (dsMixed.results "HMDB" "v2").rows.length = 1 ∧
    (Outcome.retvalOf (download_dataset_results dsMixed none (some "v1"))).map
        (fun df => df.rows.length) = some 1 := by
  decide

/-- C2 amended: with the database argument None the filename is always
all_databases.csv and the loop fetches exactly the descriptors whose version
passes the version filter, which is every available descriptor when the
version argument is also None. -/
theorem c2_amended_all_databases (d : Dataset) (version : Option String)
    (h2 : ∀ s ∈ databaseInfo d, (pySplitWs s).length = 2) :
    (Outcome.writtenOf (download_dataset_results d none version)).map Prod.fst =
      some "all_databases.csv" ∧
    Outcome.fetchesOf (download_dataset_results d none version) =
      some (selectedOf none version (databaseInfo d)) ∧
    (Outcome.retvalOf (download_dataset_results d none version)).map
        (fun df => df.rows.length) =
      some (((selectedOf none version (databaseInfo d)).map
        (fun p => (d.results p.1 p.2).rows.length)).sum) ∧
    (version = none →
      selectedOf none none (databaseInfo d) =
        (databaseInfo d).map
          (fun s => ((pySplitWs s).getD 0 "", (pySplitWs s).getD 1 ""))) := by
  have hr : reachesLoop d none = true := rfl
  refine ⟨?_, ?_, retval_rows_length d none version h2 hr,
    fun _ => selectedOf_none_none h2⟩
  · rw [download_eq_finish d none version h2 hr]
    simp [Outcome.writtenOf, finishRun, mkFilename]
  · rw [download_eq_finish d none version h2 hr]
    simp [Outcome.fetchesOf, finishRun]

/-- Witness for the amended C2: with no filters, both descriptors of a
two-database dataset are fetched and the filename is all_databases.csv. -/
theorem c2_amended_witness :
    Outcome.fetchesOf (download_dataset_results dsMixed none none) =
      some [("KEGG", "v1"), ("HMDB", "v2")] ∧
    (Outcome.writtenOf (download_dataset_results dsMixed none none)).map Prod.fst =
      some "all_databases.csv" := by
  have h := c2_amended_all_databases dsMixed none (by decide)
  exact ⟨h.2.1.trans (by decide), h.1⟩

/-- Counterexample to C4 as stated: the name filter KE prefix-matches both
KEGG descriptors, so the filename is KE_all_versions.csv, but the combined
table has zero rows while the per-descriptor tables of the matched
descriptors hold one row each: the row count does not equal the sum over the
matched descriptors. -/
theorem c4_cex_prefix_match_rowcount_zero :
    (Outcome.writtenOf (download_dataset_results dsTwoKEGG (some "KE") none)).map Prod.fst =
      some "KE_all_versions.csv" ∧
    matchedOf dsTwoKEGG "KE" = ["KEGG v1", "KEGG v2"] ∧
    (dsTwoKEGG.results "KEGG" "v1").rows.length +
      (dsTwoKEGG.results "KEGG" "v2").rows.length = 2 ∧
    (Outcome.retvalOf (download_dataset_results dsTwoKEGG (some "KE") none)).map
        (fun df => df.rows.length) = some 0 := by
  decide

/-- C4 amended: when a truthy name filter prefix-matches at least two parsed
descriptors and the version argument is None, the output filename is the
filter followed by _all_versions.csv, and the combined row count equals the
sum of the row counts of the tables of the descriptors the loop actually
selects (those whose parsed name equals the filter exactly). -/
theorem c4_amended_all_versions_rowcount (d : Dataset) (a : String)
    (ha : a ≠ "") (h2 : ∀ s ∈ databaseInfo d, (pySplitWs s).length = 2)
    (hm : 2 ≤ (matchedOf d a).length) :
    (Outcome.writtenOf (download_dataset_results d (some a) none)).map Prod.fst =
      some (a ++ "_all_versions.csv") ∧
    (Outcome.retvalOf (download_dataset_results d (some a) none)).map
        (fun df => df.rows.length) =
      some (((selectedOf (some a) none (databaseInfo d)).map
        (fun p => (d.results p.1 p.2).rows.length)).sum) := by
  have hm' : matchedOf d a ≠ [] := by
    intro hnil
    rw [hnil] at hm
    simp at hm
  have hr : reachesLoop d (some a) = true := decide_eq_true (Or.inr hm')
  refine ⟨?_, retval_rows_length d (some a) none h2 hr⟩
  rw [download_eq_finish d (some a) none h2 hr]
  have hfn : mkFilename (databaseInfo d) (some a) = a ++ "_all_versions.csv" := by
    unfold mkFilename
    dsimp only
    rw [if_neg ha]
    have hlen : 1 < (((databaseInfo d).filter (fun s => strStarts s a)).map
        (fun s => (pySplitWs s).getD 1 "")).length := by
      rw [List.length_map]
      exact lt_of_lt_of_le one_lt_two hm
    rw [if_pos hlen]
  simp [Outcome.writtenOf, finishRun, hfn]

/-- Witness for the amended C4 at the exact common name KEGG: two matched
versions, combined row count two. -/
theorem c4_amended_witness :
    (Outcome.writtenOf (download_dataset_results dsTwoKEGG (some "KEGG") none)).map Prod.fst =
      some "KEGG_all_versions.csv" ∧
    (Outcome.retvalOf (download_dataset_results dsTwoKEGG (some "KEGG") none)).map
        (fun df => df.rows.length) = some 2 := by
  have h := c4_amended_all_versions_rowcount dsTwoKEGG "KEGG"
    (by decide) (by decide) (by decide)
  exact ⟨h.1, h.2.trans (by decide)⟩

theorem splitWsAux_append_nonws :
    ∀ (l : List Char), (∀ c ∈ l, c.isWhitespace = false) →
    ∀ (r acc : List Char), splitWsAux (l ++ r) acc = splitWsAux r (l.reverse ++ acc) := by
  intro l
  induction l with
  | nil => intro _ r acc; simp
  | cons c t ih =>
    intro hl r acc
    have hc : c.isWhitespace = false := hl c (List.mem_cons_self c t)
    simp only [List.cons_append, splitWsAux, hc, Bool.false_eq_true, if_false,
      List.append_eq]
    rw [ih (fun x hx => hl x (List.mem_cons_of_mem c hx)) r (c :: acc)]
    simp [List.reverse_cons, List.append_assoc]

theorem splitWsAux_single {l : List Char} (hne : l ≠ [])
    (hl : ∀ c ∈ l, c.isWhitespace = false) : splitWsAux l [] = [l] := by
  have h1 := splitWsAux_append_nonws l hl [] []
  rw [List.append_nil] at h1
  rw [h1]
  simp [splitWsAux, List.reverse_eq_nil_iff, hne]

theorem pySplitWs_join_two {n v : String}
    (hn : singleTok n = true) (hv : singleTok v = true) :
    pySplitWs (String.mk (n.data ++ ' ' :: v.data)) = [n, v] := by
  obtain ⟨hnne, hnws⟩ := of_decide_eq_true hn
  obtain ⟨hvne, hvws⟩ := of_decide_eq_true hv
  unfold pySplitWs
  show ((splitWsAux (n.data ++ ' ' :: v.data) [])).map String.mk = [n, v]
  rw [splitWsAux_append_nonws n.data hnws (' ' :: v.data) [], List.append_nil]
  have hsp : (' ' : Char).isWhitespace = true := rfl
  have hacc : n.data.reverse ≠ [] := by
    simp [List.reverse_eq_nil_iff, hnne]
  simp only [splitWsAux, hsp, if_true, if_neg hacc]
  rw [splitWsAux_single hvne hvws]
  simp

theorem parsedVersion_eq_token {raw n ver : String}
    (hp : parsedParts raw = [n, ver]) (hn : singleTok n = true) (hv : singleTok ver = true) :
    (pySplitWs (parseDescriptor raw)).getD 1 "" = ver := by
  unfold parseDescriptor
  rw [hp]
  have hj : joinSpace ([n, ver].map String.data) = n.data ++ ' ' :: ver.data := by
    simp [joinSpace]
  rw [hj, pySplitWs_join_two hn hv]
  simp [List.getD]

/-- Counterexample to C5 as stated: the raw descriptor has a parsed version
carrying a leading space, so the parsed version is " v1" while the written
filename uses the whitespace token and is KEGG_v1.csv, not the claimed
KEGG_ v1.csv built from the parsed version string. -/
theorem c5_cex_version_with_space :
    matchedOf dsSpaceVer "KEGG" = ["KEGG  v1"] ∧
    parsedParts "<1:KEGG: v1>" = ["KEGG", " v1"] ∧
    (Outcome.writtenOf (download_dataset_results dsSpaceVer (some "KEGG") none)).map
        Prod.fst = some "KEGG_v1.csv" ∧
    ("KEGG_v1.csv" : String) ≠ "KEGG_" ++ " v1" ++ ".csv" := by
  decide

/-- C5 amended: when a truthy name filter prefix-matches exactly one parsed
descriptor, the output filename is the filter, an underscore, the second
whitespace token of that descriptor's parsed string, and .csv; this token
equals the descriptor's parsed version whenever the parsed name and parsed
version are single whitespace-free tokens. -/
theorem c5_amended_single_match_filename (d : Dataset) (a m : String)
    (version : Option String) (ha : a ≠ "")
    (h2 : ∀ s ∈ databaseInfo d, (pySplitWs s).length = 2)
    (hm : matchedOf d a = [m]) :
    (Outcome.writtenOf (download_dataset_results d (some a) version)).map Prod.fst =
      some (a ++ "_" ++ (pySplitWs m).getD 1 "" ++ ".csv") ∧
    (∀ raw n ver, parsedParts raw = [n, ver] → singleTok n = true → singleTok ver = true →
      (pySplitWs (parseDescriptor raw)).getD 1 "" = ver) := by
  refine ⟨?_, fun raw n ver hp hn hv => parsedVersion_eq_token hp hn hv⟩
  have hm' : matchedOf d a ≠ [] := by
    rw [hm]
    simp
  have hr : reachesLoop d (some a) = true := decide_eq_true (Or.inr hm')
  rw [download_eq_finish d (some a) version h2 hr]
  have hfn : mkFilename (databaseInfo d) (some a) =
      a ++ "_" ++ (pySplitWs m).getD 1 "" ++ ".csv" := by
    unfold mkFilename
    dsimp only
    rw [if_neg ha]
    have hflt : (databaseInfo d).filter (fun s => strStarts s a) = [m] := hm
    rw [hflt]
    simp [List.getD]
  simp [Outcome.writtenOf, finishRun, hfn]

/-- Witness for the amended C5 at a single exact match. -/
theorem c5_amended_witness :
    (Outcome.writtenOf (download_dataset_results dsMixed (some "KEGG") none)).map Prod.fst =
      some "KEGG_v1.csv" := by
  have h := c5_amended_single_match_filename dsMixed "KEGG" "KEGG v1" none
    (by decide) (by decide) (by decide)
  exact h.1.trans (by decide)

theorem scanAdduct_eq_none_iff :
    ∀ l : List Char, scanAdduct l = none ↔ ∀ k, headMatch (l.drop k) = false := by
  intro l
  induction l with
  | nil => simp [scanAdduct, headMatch]
  | cons c rest ih =>
    by_cases h : headMatch (c :: rest) = true
    · simp only [scanAdduct, h, if_true]
      constructor
      · intro hcontra
        simp at hcontra
      · intro hall
        have h0 := hall 0
        rw [List.drop_zero, h] at h0
        exact absurd h0 (by decide)
    · have hfalse : headMatch (c :: rest) = false := by
        cases hh : headMatch (c :: rest)
        · rfl
        · exact absurd hh h
      simp only [scanAdduct, hfalse, Bool.false_eq_true, if_false]
      rw [ih]
      constructor
      · intro hall k
        cases k with
        | zero => simpa using hfalse
        | succ k => simpa using hall k
      · intro hall k
        have hk := hall (k + 1)
        simpa using hk

theorem scanAdduct_eq_some_iff :
    ∀ (l out : List Char), scanAdduct l = some out ↔
      ∃ k, headMatch (l.drop k) = true ∧ (∀ j < k, headMatch (l.drop j) = false) ∧
        out = '+' :: ((l.drop (k + 1)).takeWhile isAlnumChar) := by
  intro l
  induction l with
  | nil =>
    intro out
    constructor
    · intro h
      simp [scanAdduct] at h
    · rintro ⟨k, hk, -, -⟩
      rw [List.drop_nil] at hk
      exact absurd hk (by decide)
  | cons c rest ih =>
    intro out
    by_cases h : headMatch (c :: rest) = true
    · simp only [scanAdduct, h, if_true]
      constructor
      · intro hout
        refine ⟨0, by simpa using h, fun j hj => absurd hj (by omega), ?_⟩
        have he := Option.some.inj hout
        simp only [Nat.zero_add, List.drop_succ_cons, List.drop_zero]
        exact he.symm
      · rintro ⟨k, hk, hb, ho⟩
        cases k with
        | zero =>
          simp only [Nat.zero_add, List.drop_succ_cons, List.drop_zero] at ho
          rw [ho]
        | succ k =>
          have h0 := hb 0 (by omega)
          rw [List.drop_zero, h] at h0
          exact absurd h0 (by decide)
    · have hfalse : headMatch (c :: rest) = false := by
        cases hh : headMatch (c :: rest)
        · rfl
        · exact absurd hh h
      simp only [scanAdduct, hfalse, Bool.false_eq_true, if_false]
      rw [ih out]
      constructor
      · rintro ⟨k, hk, hb, ho⟩
        refine ⟨k + 1, by simpa using hk, ?_, by simpa using ho⟩
        intro j hj
        cases j with
        | zero => simpa using hfalse
        | succ j => simpa using hb j (by omega)
      · rintro ⟨k, hk, hb, ho⟩
        cases k with
        | zero =>
          rw [List.drop_zero, hfalse] at hk
          exact absurd hk (by decide)
        | succ k =>
          refine ⟨k, by simpa using hk, ?_, by simpa using ho⟩
          intro j hj
          have := hb (j + 1) (by omega)
          simpa using this

/-- C7: when an ion column exists, the extraction step rewrites every row,
setting its Adduct cell to the regex extraction of its ion cell (missing or
unmatched ion values give a missing Adduct); the extraction returns the
leftmost match, a '+' followed by the maximal alphanumeric run, as the
characterizations state, and on the sample values X+H gives +H while a
value with no such substring gives none. -/
theorem c7_adduct_extraction :
    (∀ df : DataFrame, "ion" ∈ df.cols → (extractStep df).rows = df.rows.map adductRow) ∧
    (∀ r : Row, getCell (adductRow r) "Adduct" = (getCell r "ion").bind adductValue) ∧
    (∀ (s : String) (out : List Char), scanAdduct s.data = some out ↔
      ∃ k, headMatch (s.data.drop k) = true ∧
        (∀ j < k, headMatch (s.data.drop j) = false) ∧
        out = '+' :: ((s.data.drop (k + 1)).takeWhile isAlnumChar)) ∧
    (∀ s : String, scanAdduct s.data = none ↔ ∀ k, headMatch (s.data.drop k) = false) ∧
    adductValue "X+H" = some "+H" ∧ adductValue "C8H10" = none := by
  refine ⟨?_, ?_, fun s out => scanAdduct_eq_some_iff s.data out,
    fun s => scanAdduct_eq_none_iff s.data, by decide, by decide⟩
  · intro df h
    rw [extractStep_of_mem h]
  · intro r
    unfold adductRow
    rw [getCell_setKey_self]

/-- Witness for C7 at the sample table and the example value from the spec. -/
theorem c7_adduct_witness :
    (extractStep sampleDF).rows = sampleDF.rows.map adductRow ∧
    getCell (adductRow [("ion", some "X+H")]) "Adduct" = some "+H" := by
  refine ⟨c7_adduct_extraction.1 sampleDF (by decide), ?_⟩
  rw [c7_adduct_extraction.2.1 [("ion", some "X+H")]]
  decide

/-- C8: the column deriver is idempotent (a second application is the
identity on its own output), the Adduct extraction and the rename commute,
after the deriver no intensity column remains, an intensity column becomes
maxIntensity, and the ion column survives so a rerun re-extracts the same
Adduct values. -/
theorem c8_deriver_idempotent :
    (∀ df : DataFrame, deriveSteps (deriveSteps df) = deriveSteps df) ∧
    (∀ df : DataFrame, extractStep (renameStep df) = renameStep (extractStep df)) ∧
    (∀ df : DataFrame, "intensity" ∉ (deriveSteps df).cols) ∧
    (∀ df : DataFrame, "intensity" ∈ df.cols → "maxIntensity" ∈ (deriveSteps df).cols) ∧
    (∀ df : DataFrame, "ion" ∈ df.cols → "ion" ∈ (deriveSteps df).cols) := by
  refine ⟨deriveSteps_idem, extractStep_renameStep_comm, ?_, ?_, ?_⟩
  · intro df
    exact not_intensity_mem_renameStep (extractStep df)
  · intro df h
    have h2 : "intensity" ∈ (extractStep df).cols :=
      (mem_cols_extractStep (by decide) df).mpr h
    unfold deriveSteps
    rw [renameStep_of_mem h2]
    exact mem_map_rnKey_max h2
  · intro df h
    have h2 : "ion" ∈ (extractStep df).cols := (mem_cols_extractStep (by decide) df).mpr h
    unfold deriveSteps
    exact (mem_cols_renameStep (by decide) (by decide) (extractStep df)).mpr h2

/-- Witness for C8 at the sample table carrying ion and intensity columns. -/
theorem c8_deriver_witness :
    deriveSteps (deriveSteps sampleDF) = deriveSteps sampleDF ∧
    "maxIntensity" ∈ (deriveSteps sampleDF).cols ∧
    "intensity" ∉ (deriveSteps sampleDF).cols ∧
    "ion" ∈ (deriveSteps sampleDF).cols :=
  ⟨c8_deriver_idempotent.1 sampleDF, c8_deriver_idempotent.2.2.2.1 sampleDF (by decide),
    c8_deriver_idempotent.2.2.1 sampleDF, c8_deriver_idempotent.2.2.2.2 sampleDF (by decide)⟩

/-- C6: whenever the run reaches the loop and completes, the returned table
is the per-descriptor row blocks in the original descriptor order, each block
the fetched rows in order transformed by the deriver row map; every tagged
row carries the owning descriptor's name in the Database cell and version in
the Version cell, and the deriver row map preserves those two cells. -/
theorem c6_rows_tagged_in_order (d : Dataset) (database version : Option String)
    (h2 : ∀ s ∈ databaseInfo d, (pySplitWs s).length = 2)
    (hr : reachesLoop d database = true) :
    ∃ dfFin : DataFrame,
      Outcome.retvalOf (download_dataset_results d database version) = some dfFin ∧
      dfFin.rows =
        ((selectedOf database version (databaseInfo d)).map
          (fun p => (taggedDF d p.1 p.2).rows.map
            (deriveRowF (decide ("ion" ∈ (combinedDF d database version).cols))
              (decide ("intensity" ∈ (combinedDF d database version).cols))))).flatten ∧
      (∀ p ∈ selectedOf database version (databaseInfo d),
        ∀ r ∈ (taggedDF d p.1 p.2).rows,
          getCell r "Database" = some p.1 ∧ getCell r "Version" = some p.2) ∧
      (∀ (hI hN : Bool) (r : Row),
        getCell (deriveRowF hI hN r) "Database" = getCell r "Database" ∧
        getCell (deriveRowF hI hN r) "Version" = getCell r "Version") := by
  refine ⟨deriveSteps (combinedDF d database version), ?_, ?_, ?_, ?_⟩
  · rw [download_eq_finish d database version h2 hr]
    simp [Outcome.retvalOf, finishRun]
  · rw [deriveSteps_rows]
    have hcomb : (combinedDF d database version).rows =
        ((selectedOf database version (databaseInfo d)).map
          (fun p => (taggedDF d p.1 p.2).rows)).flatten := by
      rw [combinedDF, concatAll_rows]
      simp only [DataFrame.empty, List.map_map, List.nil_append]
      rfl
    rw [hcomb, List.map_flatten, List.map_map]
    rfl
  · intro p hp r hr2
    simp only [taggedDF, setConst, List.map_map] at hr2
    obtain ⟨r0, -, rfl⟩ := List.mem_map.mp hr2
    constructor
    · simp only [Function.comp_apply]
      rw [getCell_setKey_ne (by decide), getCell_setKey_self]
    · simp only [Function.comp_apply]
      rw [getCell_setKey_self]
  · intro hI hN r
    exact ⟨getCell_deriveRowF (by decide) (by decide) (by decide) hI hN r,
      getCell_deriveRowF (by decide) (by decide) (by decide) hI hN r⟩

/-- Witness for C6 at the two-database dataset with no filters: both one-row
blocks appear in the returned table. -/
theorem c6_rows_witness :
    (Outcome.retvalOf (download_dataset_results dsMixed none none)).map
      (fun df => df.rows.length) = some 2 := by
  obtain ⟨df, hdf, hrows, -, -⟩ := c6_rows_tagged_in_order dsMixed none none
    (by decide) (by decide)
  rw [hdf, Option.map_some']
  rw [hrows]
  decide
